import Mathlib

/-!
Verification development for the stargazer-reborn repository.

The gossip subsystem (src/workers/base/src/gossip/) declares the modules
ident, compression, resolver, runtime and transport, but only mod.rs is
present in the source tree; those modules are therefore modelled from the
specification (spec.md sections 3, 4 and 8), and every definition doing so
carries a doc comment saying which part of the spec it follows.  The API
server handlers (src/api/src/server/handler.rs) and the error type
(src/api/src/rpc/error.rs) are present and are embedded directly from the
source.
-/

namespace Gossip

/-- Modelled from the spec: peer liveness states of a PeerRecord
(spec section 3, "state: {Alive, Suspect, Dead}"); the transient Joining
state of section 4.5 never participates in the merge priority order and is
omitted. -/
inductive PeerState where
  | alive
  | suspect
  | dead
deriving DecidableEq, Repr

/-- Modelled from the spec: the priority order used by the merge rule at
equal incarnation, "Dead > Suspect > Alive" (spec section 4.5). -/
def statePriority : PeerState → Nat
  | .alive => 0
  | .suspect => 1
  | .dead => 2

/-- Modelled from the spec: PeerRecord
`{ id, addresses, incarnation, state, last_seen }` (spec section 3), with
identities, addresses and timestamps represented as naturals. -/
structure PeerRecord where
  id : Nat
  addresses : List Nat
  incarnation : Nat
  state : PeerState
  lastSeen : Nat
deriving DecidableEq, Repr

/-- Modelled from the spec: the gossip merge rule test (spec section 4.5):
an incoming record replaces the local one iff its incarnation is strictly
greater, or equal with a state strictly higher in the priority order
Dead > Suspect > Alive. -/
def replaces (cur incoming : PeerRecord) : Bool :=
  (cur.incarnation < incoming.incarnation) ||
    ((cur.incarnation == incoming.incarnation) &&
      (statePriority cur.state < statePriority incoming.state))

/-- Modelled from the spec: merging one incoming PeerRecord into the
membership view (spec sections 3 and 4.5).  The view is an association
list from ID to PeerRecord; an unknown ID is created on first contact,
a known ID is replaced only when `replaces` allows it. -/
def mergeRecord (v : List PeerRecord) (r : PeerRecord) : List PeerRecord :=
  match v with
  | [] => [r]
  | p :: rest =>
      if p.id == r.id then (if replaces p r then r else p) :: rest
      else p :: mergeRecord rest r

/-- Modelled from the spec: the record a MembershipView stores for an ID
(spec section 3, "mapping from ID to PeerRecord"). -/
def lookupPeer (v : List PeerRecord) (i : Nat) : Option PeerRecord :=
  v.find? (fun p => p.id == i)

/-- Modelled from the spec: a whole sequence of gossip merge operations
applied to a view in order (spec section 4.5, anti-entropy rounds). -/
def mergeAll (v : List PeerRecord) (rs : List PeerRecord) : List PeerRecord :=
  rs.foldl mergeRecord v

theorem replaces_self (r : PeerRecord) : replaces r r = false := by
  simp [replaces]

/-- C5: merging the same PeerRecord twice equals merging it once. -/
theorem mergeRecord_idem (v : List PeerRecord) (r : PeerRecord) :
    mergeRecord (mergeRecord v r) r = mergeRecord v r := by
  induction v with
  | nil => simp [mergeRecord, replaces_self]
  | cons p rest ih =>
      by_cases hid : p.id == r.id
      · by_cases hrep : replaces p r
        · simp [mergeRecord, hid, hrep, replaces_self]
        · simp [mergeRecord, hid, hrep]
      · simp [mergeRecord, hid, ih]

theorem lookupPeer_nil (i : Nat) : lookupPeer [] i = none := rfl

theorem lookupPeer_cons (p : PeerRecord) (rest : List PeerRecord) (i : Nat) :
    lookupPeer (p :: rest) i = if p.id == i then some p else lookupPeer rest i := by
  by_cases h : p.id == i <;> simp [lookupPeer, List.find?, h]

theorem replaces_incarnation_le (p r : PeerRecord) (h : replaces p r = true) :
    p.incarnation ≤ r.incarnation := by
  simp [replaces] at h
  rcases h with h | ⟨h, _⟩
  · exact Nat.le_of_lt h
  · exact Nat.le_of_eq h

/-- The merge rule never replaces a Dead record by an Alive record of lower
or equal incarnation. -/
theorem replaces_dead_alive_false (p r : PeerRecord) (hd : p.state = .dead)
    (ha : r.state = .alive) (hinc : r.incarnation ≤ p.incarnation) :
    replaces p r = false := by
  simp [replaces, hd, ha, statePriority]
  omega

/-- Merging a record does not change what is stored under other IDs. -/
theorem lookupPeer_mergeRecord_ne (v : List PeerRecord) (r : PeerRecord) (i : Nat)
    (h : r.id ≠ i) : lookupPeer (mergeRecord v r) i = lookupPeer v i := by
  induction v with
  | nil => simp [mergeRecord, lookupPeer_cons, lookupPeer_nil, h]
  | cons p rest ih =>
      by_cases hid : p.id == r.id
      · have hpi : (p.id == i) = false := by
          simp at hid ⊢
          omega
        by_cases hrep : replaces p r <;>
          simp [mergeRecord, hid, hrep, lookupPeer_cons, hpi, h]
      · by_cases hpi : p.id == i <;> simp [mergeRecord, hid, lookupPeer_cons, hpi, ih]

/-- Characterization of the merge rule at the incoming record's own ID:
the stored record becomes the incoming one exactly when `replaces` holds. -/
theorem lookupPeer_mergeRecord_eq (v : List PeerRecord) (r : PeerRecord) (p : PeerRecord)
    (hp : lookupPeer v r.id = some p) :
    lookupPeer (mergeRecord v r) r.id = some (if replaces p r then r else p) := by
  induction v with
  | nil => simp [lookupPeer_nil] at hp
  | cons a rest ih =>
      rw [lookupPeer_cons] at hp
      by_cases hid : a.id == r.id
      · simp only [hid, if_true] at hp
        have hap : a = p := by injection hp
        subst hap
        by_cases hrep : replaces a r <;>
          simp [mergeRecord, hid, hrep, lookupPeer_cons]
      · simp only [hid, if_false] at hp
        have h2 := ih hp
        simp [mergeRecord, hid, lookupPeer_cons, h2]

/-- A single merge never decreases the stored incarnation of any ID. -/
theorem lookupPeer_mergeRecord_mono (v : List PeerRecord) (r : PeerRecord) (i : Nat)
    (p : PeerRecord) (hp : lookupPeer v i = some p) :
    ∃ q, lookupPeer (mergeRecord v r) i = some q ∧ p.incarnation ≤ q.incarnation := by
  by_cases hri : r.id = i
  · subst hri
    refine ⟨if replaces p r then r else p, lookupPeer_mergeRecord_eq v r p hp, ?_⟩
    by_cases hrep : replaces p r
    · simpa [hrep] using replaces_incarnation_le p r hrep
    · simp [hrep]
  · exact ⟨p, by rw [lookupPeer_mergeRecord_ne v r i hri]; exact hp, Nat.le_refl _⟩

/-- A whole sequence of merges never decreases the stored incarnation. -/
theorem lookupPeer_mergeAll_mono (rs : List PeerRecord) (v : List PeerRecord) (i : Nat)
    (p : PeerRecord) (hp : lookupPeer v i = some p) :
    ∃ q, lookupPeer (mergeAll v rs) i = some q ∧ p.incarnation ≤ q.incarnation := by
  induction rs generalizing v p with
  | nil => exact ⟨p, hp, Nat.le_refl _⟩
  | cons r rest ih =>
      obtain ⟨q, hq, hle⟩ := lookupPeer_mergeRecord_mono v r i p hp
      obtain ⟨q2, hq2, hle2⟩ := ih (mergeRecord v r) q hq
      exact ⟨q2, hq2, Nat.le_trans hle hle2⟩

/-- A Dead record survives the merge of any Alive record of lower or equal
incarnation, unchanged. -/
theorem lookupPeer_merge_dead_preserved (v : List PeerRecord) (r : PeerRecord) (i : Nat)
    (p : PeerRecord) (hp : lookupPeer v i = some p) (hd : p.state = .dead)
    (ha : r.state = .alive) (hinc : r.incarnation ≤ p.incarnation) :
    lookupPeer (mergeRecord v r) i = some p := by
  by_cases hri : r.id = i
  · subst hri
    rw [lookupPeer_mergeRecord_eq v r p hp, replaces_dead_alive_false p r hd ha hinc]
    simp
  · rw [lookupPeer_mergeRecord_ne v r i hri]; exact hp

end Gossip

/-- C1: over any sequence of gossip merges the incarnation stored for any ID
is non-decreasing; a Dead record at incarnation N is never replaced by an
Alive record of incarnation at most N; and an incoming record replaces the
stored one iff its incarnation is strictly greater or equal with a state
higher in the priority order Dead > Suspect > Alive. -/
theorem C1_merge_monotonicity (v : List Gossip.PeerRecord) (i : Nat)
    (p : Gossip.PeerRecord) (hp : Gossip.lookupPeer v i = some p) :
    (∀ rs, ∃ q, Gossip.lookupPeer (Gossip.mergeAll v rs) i = some q ∧
        p.incarnation ≤ q.incarnation)
    ∧ (∀ r : Gossip.PeerRecord, p.state = .dead → r.state = .alive →
        r.incarnation ≤ p.incarnation →
        Gossip.lookupPeer (Gossip.mergeRecord v r) i = some p)
    ∧ (∀ r : Gossip.PeerRecord, r.id = i →
        Gossip.lookupPeer (Gossip.mergeRecord v r) i =
          some (if Gossip.replaces p r then r else p)) := by
  refine ⟨fun rs => Gossip.lookupPeer_mergeAll_mono rs v i p hp,
    fun r hd ha hinc => Gossip.lookupPeer_merge_dead_preserved v r i p hp hd ha hinc,
    fun r hri => ?_⟩
  subst hri
  exact Gossip.lookupPeer_mergeRecord_eq v r p hp

/-- C1 witness: the theorem applied to the singleton view holding peer 1,
Dead at incarnation 5. -/
theorem C1_merge_monotonicity_witness :
    (∀ rs, ∃ q, Gossip.lookupPeer
        (Gossip.mergeAll [⟨1, [], 5, .dead, 0⟩] rs) 1 = some q ∧
        (5 : Nat) ≤ q.incarnation)
    ∧ (∀ r : Gossip.PeerRecord, (Gossip.PeerState.dead = .dead) → r.state = .alive →
        r.incarnation ≤ 5 →
        Gossip.lookupPeer (Gossip.mergeRecord [⟨1, [], 5, .dead, 0⟩] r) 1 =
          some ⟨1, [], 5, .dead, 0⟩)
    ∧ (∀ r : Gossip.PeerRecord, r.id = 1 →
        Gossip.lookupPeer (Gossip.mergeRecord [⟨1, [], 5, .dead, 0⟩] r) 1 =
          some (if Gossip.replaces ⟨1, [], 5, .dead, 0⟩ r then r
            else ⟨1, [], 5, .dead, 0⟩)) :=
  C1_merge_monotonicity [⟨1, [], 5, .dead, 0⟩] 1 ⟨1, [], 5, .dead, 0⟩ (by rfl)

/-- C5: For every MembershipView v and every PeerRecord r, merging r into v
twice yields the same view as merging it once:
merge(merge(v, r), r) = merge(v, r). -/
theorem C5_merge_idempotent (v : List Gossip.PeerRecord) (r : Gossip.PeerRecord) :
    Gossip.mergeRecord (Gossip.mergeRecord v r) r = Gossip.mergeRecord v r :=
  Gossip.mergeRecord_idem v r

namespace Flood

/-- Modelled from the spec: a message copy in flight towards one peer,
carrying the message id and the envelope's hop_count
(spec sections 3 and 4.5). -/
structure Packet where
  dest : Nat
  mid : Nat
  hop : Nat
deriving DecidableEq, Repr

/-- Modelled from the spec: the dissemination state of one flood — the
copies in flight, each node's seen-set entry for the message ids it has
processed, and the log of subscriber deliveries (spec sections 4.5 and 5);
seen and delivered hold (node, message_id) pairs. -/
structure FloodState where
  inflight : List Packet
  seen : List (Nat × Nat)
  delivered : List (Nat × Nat)
deriving DecidableEq, Repr

/-- Modelled from the spec: `publish` "assigns a fresh message_id, sets
hop_count = 0, sends to a fanout of Alive peers" (spec section 4.5),
guarded so that "a TTL of 0 never leaves the originating node"
(spec section 8). -/
def publish (ttl : Nat) (fanout : List Nat) (mid : Nat) : List Packet :=
  if ttl = 0 then [] else fanout.map (fun d => ⟨d, mid, 0⟩)

/-- Modelled from the spec: the state right after the origin publishes one
message; no node has seen or delivered anything yet. -/
def initState (ttl : Nat) (fanout : List Nat) (mid : Nat) : FloodState :=
  ⟨publish ttl fanout mid, [], []⟩

/-- Modelled from the spec: one receipt step (spec section 4.5).  On
receipt a node "checks a bounded-size, TTL-evicting seen-set keyed by
message_id: if already seen, drop (idempotent dedup); else deliver to the
local subscriber and, if hop_count is below the configured limit,
re-forward to its own random fanout with hop_count + 1".  The forwarding
fanout is an arbitrary peer list, which covers every flood path. -/
inductive Step (ttl : Nat) : FloodState → FloodState → Prop where
  | deliver (s : FloodState) (p : Packet) (pre post : List Packet) (fanout : List Nat)
      (hsplit : s.inflight = pre ++ p :: post)
      (hnew : (p.dest, p.mid) ∉ s.seen) :
      Step ttl s
        ⟨pre ++ post ++
            (if p.hop < ttl then fanout.map (fun d => ⟨d, p.mid, p.hop + 1⟩) else []),
          (p.dest, p.mid) :: s.seen, (p.dest, p.mid) :: s.delivered⟩
  | drop (s : FloodState) (p : Packet) (pre post : List Packet)
      (hsplit : s.inflight = pre ++ p :: post)
      (hseen : (p.dest, p.mid) ∈ s.seen) :
      Step ttl s ⟨pre ++ post, s.seen, s.delivered⟩

/-- One step preserves the dedup invariant: the delivery log has no
duplicates and matches the seen-set. -/
theorem step_dedup_inv (ttl : Nat) (s s' : FloodState) (hstep : Step ttl s s')
    (h1 : s.delivered.Nodup) (h2 : ∀ nm, nm ∈ s.seen ↔ nm ∈ s.delivered) :
    s'.delivered.Nodup ∧ ∀ nm, nm ∈ s'.seen ↔ nm ∈ s'.delivered := by
  cases hstep with
  | deliver p pre post fanout hsplit hnew =>
      constructor
      · exact List.Nodup.cons (fun hmem => hnew ((h2 _).mpr hmem)) h1
      · intro nm
        simp only [List.mem_cons]
        constructor
        · rintro (rfl | hmem)
          · exact Or.inl rfl
          · exact Or.inr ((h2 nm).mp hmem)
        · rintro (rfl | hmem)
          · exact Or.inl rfl
          · exact Or.inr ((h2 nm).mpr hmem)
  | drop p pre post hsplit hseen => exact ⟨h1, h2⟩

/-- Every reachable state satisfies the dedup invariant. -/
theorem reachable_dedup_inv (ttl : Nat) (fanout : List Nat) (mid : Nat)
    (s : FloodState)
    (h : Relation.ReflTransGen (Step ttl) (initState ttl fanout mid) s) :
    s.delivered.Nodup ∧ ∀ nm, nm ∈ s.seen ↔ nm ∈ s.delivered := by
  induction h with
  | refl => exact ⟨List.nodup_nil, fun nm => by simp [initState]⟩
  | tail hab hstep ih => exact step_dedup_inv ttl _ _ hstep ih.1 ih.2

/-- A step never delivers a (node, message_id) pair that node has already
seen: the count of that pair in the delivery log is unchanged. -/
theorem step_seen_no_delivery (ttl : Nat) (s s' : FloodState) (hstep : Step ttl s s')
    (nm : Nat × Nat) (hseen : nm ∈ s.seen) :
    s'.delivered.count nm = s.delivered.count nm := by
  cases hstep with
  | deliver p pre post fanout hsplit hnew =>
      have hne : (p.dest, p.mid) ≠ nm := fun h => hnew (h ▸ hseen)
      simp [List.count_cons, hne.symm]
  | drop p pre post hsplit hseen2 => rfl

/-- One step preserves the hop-count bound on all copies in flight. -/
theorem step_hop_bound (ttl : Nat) (s s' : FloodState) (hstep : Step ttl s s')
    (hinv : ∀ p ∈ s.inflight, p.hop ≤ ttl) : ∀ p ∈ s'.inflight, p.hop ≤ ttl := by
  cases hstep with
  | deliver p pre post fanout hsplit hnew =>
      intro q hq
      rw [hsplit] at hinv
      simp only [List.mem_append] at hq
      rcases hq with (hq | hq) | hq
      · exact hinv q (by simp [hq])
      · exact hinv q (by simp [hq])
      · by_cases hlt : p.hop < ttl
        · rw [if_pos hlt] at hq
          simp only [List.mem_map] at hq
          obtain ⟨d, _, rfl⟩ := hq
          show p.hop + 1 ≤ ttl
          omega
        · rw [if_neg hlt] at hq
          exact absurd hq (List.not_mem_nil q)
  | drop p pre post hsplit hseen =>
      intro q hq
      rw [hsplit] at hinv
      simp only [List.mem_append] at hq
      rcases hq with hq | hq
      · exact hinv q (by simp [hq])
      · exact hinv q (by simp [hq])

/-- Every copy in flight in a reachable state respects the hop bound. -/
theorem reachable_hop_bound (ttl : Nat) (fanout : List Nat) (mid : Nat)
    (s : FloodState)
    (h : Relation.ReflTransGen (Step ttl) (initState ttl fanout mid) s) :
    ∀ p ∈ s.inflight, p.hop ≤ ttl := by
  induction h with
  | refl =>
      intro p hp
      simp only [initState, publish] at hp
      by_cases h0 : ttl = 0
      · rw [if_pos h0] at hp
        exact absurd hp (List.not_mem_nil p)
      · rw [if_neg h0] at hp
        simp only [List.mem_map] at hp
        obtain ⟨d, _, rfl⟩ := hp
        exact Nat.zero_le ttl
  | tail hab hstep ih => exact step_hop_bound ttl _ _ hstep ih

/-- A list without duplicates holds each element at most once. -/
theorem nodup_count_le_one {α : Type} [BEq α] [LawfulBEq α] {l : List α}
    (h : l.Nodup) (a : α) : l.count a ≤ 1 := by
  induction l with
  | nil => simp
  | cons b t ih =>
      have hn := List.nodup_cons.mp h
      by_cases hab : a = b
      · subst hab
        rw [List.count_cons_self, List.count_eq_zero_of_not_mem hn.1]
      · rw [List.count_cons_of_ne hab]
        exact ih hn.2

/-- A member of a list without duplicates occurs in it exactly once. -/
theorem nodup_count_eq_one {α : Type} [BEq α] [LawfulBEq α] {l : List α}
    (h : l.Nodup) {a : α} (hm : a ∈ l) : l.count a = 1 :=
  Nat.le_antisymm (nodup_count_le_one h a) (List.count_pos_iff.mpr hm)

/-- No step is possible once nothing is in flight. -/
theorem no_step_of_inflight_nil (ttl : Nat) (s s' : FloodState)
    (hnil : s.inflight = []) (hstep : Step ttl s s') : False := by
  cases hstep with
  | deliver p pre post fanout hsplit hnew =>
      rw [hnil] at hsplit
      exact List.noConfusion (List.append_eq_nil.mp hsplit.symm).2
  | drop p pre post hsplit hseen =>
      rw [hnil] at hsplit
      exact List.noConfusion (List.append_eq_nil.mp hsplit.symm).2

/-- A flood published with TTL 0 stays forever in its initial state. -/
theorem reachable_ttl_zero (fanout : List Nat) (mid : Nat) (s : FloodState)
    (h : Relation.ReflTransGen (Step 0) (initState 0 fanout mid) s) :
    s = initState 0 fanout mid := by
  induction h with
  | refl => rfl
  | tail hab hstep ih =>
      subst ih
      exact absurd hstep (fun hs =>
        no_step_of_inflight_nil 0 _ _ (by simp [initState, publish]) hs)

end Flood

/-- C3: however many copies of a published message reach a node over
distinct flood paths, that node's subscriber callback runs exactly once for
that message_id: a message_id already in the seen-set is dropped without
delivery, a first arrival is delivered exactly once. -/
theorem C3_dedup_exactly_once (ttl : Nat) (fanout : List Nat) (mid : Nat)
    (s s' : Flood.FloodState) (n m : Nat)
    (h : Relation.ReflTransGen (Flood.Step ttl) (Flood.initState ttl fanout mid) s) :
    (s.delivered.count (n, m) ≤ 1)
    ∧ ((n, m) ∈ s.seen ↔ (n, m) ∈ s.delivered)
    ∧ ((n, m) ∈ s.seen → s.delivered.count (n, m) = 1)
    ∧ (Flood.Step ttl s s' → (n, m) ∈ s.seen →
        s'.delivered.count (n, m) = s.delivered.count (n, m)) := by
  obtain ⟨hnd, hiff⟩ := Flood.reachable_dedup_inv ttl fanout mid s h
  refine ⟨Flood.nodup_count_le_one hnd (n, m), hiff (n, m), ?_, ?_⟩
  · intro hs
    exact Flood.nodup_count_eq_one hnd ((hiff (n, m)).mp hs)
  · intro hstep hs
    exact Flood.step_seen_no_delivery ttl s s' hstep (n, m) hs

/-- C3 witness: the theorem applied to the freshly published state with
TTL 1, fanout to node 2, message id 9. -/
theorem C3_dedup_exactly_once_witness :
    ((Flood.initState 1 [2] 9).delivered.count (2, 9) ≤ 1)
    ∧ ((2, 9) ∈ (Flood.initState 1 [2] 9).seen ↔
        (2, 9) ∈ (Flood.initState 1 [2] 9).delivered)
    ∧ ((2, 9) ∈ (Flood.initState 1 [2] 9).seen →
        (Flood.initState 1 [2] 9).delivered.count (2, 9) = 1)
    ∧ (Flood.Step 1 (Flood.initState 1 [2] 9) (Flood.initState 1 [2] 9) →
        (2, 9) ∈ (Flood.initState 1 [2] 9).seen →
        (Flood.initState 1 [2] 9).delivered.count (2, 9) =
          (Flood.initState 1 [2] 9).delivered.count (2, 9)) :=
  C3_dedup_exactly_once 1 [2] 9 (Flood.initState 1 [2] 9) (Flood.initState 1 [2] 9)
    2 9 Relation.ReflTransGen.refl

/-- C4: no message copy ever carries a hop count above the configured TTL,
and a message published under TTL 0 is never sent to any peer — the flood
state never leaves the initial empty dissemination. -/
theorem C4_hop_bound (ttl : Nat) (fanout : List Nat) (mid : Nat)
    (s : Flood.FloodState)
    (h : Relation.ReflTransGen (Flood.Step ttl) (Flood.initState ttl fanout mid) s) :
    (∀ p ∈ s.inflight, p.hop ≤ ttl)
    ∧ (ttl = 0 →
        Flood.publish 0 fanout mid = [] ∧ s.inflight = [] ∧ s.delivered = []) := by
  constructor
  · exact Flood.reachable_hop_bound ttl fanout mid s h
  · rintro rfl
    have hs := Flood.reachable_ttl_zero fanout mid s h
    subst hs
    refine ⟨by simp [Flood.publish], by simp [Flood.initState, Flood.publish], rfl⟩

/-- C4 witness: the theorem applied with TTL 0, fanout to node 2, message
id 9, at the initial state. -/
theorem C4_hop_bound_witness :
    (∀ p ∈ (Flood.initState 0 [2] 9).inflight, p.hop ≤ 0)
    ∧ (0 = 0 →
        Flood.publish 0 [2] 9 = [] ∧ (Flood.initState 0 [2] 9).inflight = [] ∧
          (Flood.initState 0 [2] 9).delivered = []) :=
  C4_hop_bound 0 [2] 9 (Flood.initState 0 [2] 9) Relation.ReflTransGen.refl

namespace Compression

/-- Modelled from the spec: the gossip compression module is absent from
src/.  The codec is "symmetric and stateless per frame" (spec section 4.3);
it is modelled as run-length encoding of byte lists into (count, byte)
runs. -/
def rleCompress : List Nat → List (Nat × Nat)
  | [] => []
  | x :: xs =>
      match rleCompress xs with
      | [] => [(1, x)]
      | (n, y) :: rest =>
          if x == y then (n + 1, y) :: rest else (1, x) :: (n, y) :: rest

/-- Modelled from the spec: the symmetric decoding direction of the
stateless per-frame codec (spec section 4.3). -/
def rleDecompress : List (Nat × Nat) → List Nat
  | [] => []
  | (n, y) :: rest => List.replicate n y ++ rleDecompress rest

/-- Modelled from the spec: the output size a compressed frame declares,
the total of its run counts (spec section 4.3, "declared input size"). -/
def declaredSize (runs : List (Nat × Nat)) : Nat :=
  (runs.map (fun r => r.fst)).sum

/-- Modelled from the spec: the protocol-violation error of the codec,
CompressionBombRejected (spec sections 4.3 and 7). -/
inductive CodecError where
  | compressionBombRejected
deriving DecidableEq, Repr

/-- Modelled from the spec: decompression "enforces a maximum output-size
bound proportional to the declared input size, rejecting frames that would
exceed it" (spec section 4.3); the bound is factor times the frame length,
checked on the declared size before any output is produced. -/
def decompressBounded (factor : Nat) (runs : List (Nat × Nat)) :
    Except CodecError (List Nat) :=
  if declaredSize runs ≤ factor * runs.length then .ok (rleDecompress runs)
  else .error .compressionBombRejected

/-- Modelled from the spec: a frame body is either the raw payload or its
compressed runs (spec section 4.2 wire framing). -/
inductive FrameBody where
  | raw (bytes : List Nat)
  | rle (runs : List (Nat × Nat))
deriving DecidableEq, Repr

/-- Modelled from the spec: a frame header carries a compressed flag next
to the (possibly compressed) body (spec section 4.2). -/
structure Frame where
  compressedFlag : Bool
  body : FrameBody
deriving DecidableEq, Repr

/-- Modelled from the spec: "payloads at or above a threshold size are
compressed before framing; smaller payloads are sent raw" (spec
section 4.3). -/
def encodePayload (threshold : Nat) (p : List Nat) : Frame :=
  if threshold ≤ p.length then ⟨true, .rle (rleCompress p)⟩ else ⟨false, .raw p⟩

/-- Decompression undoes compression exactly. -/
theorem rleDecompress_rleCompress (l : List Nat) :
    rleDecompress (rleCompress l) = l := by
  induction l with
  | nil => rfl
  | cons x xs ih =>
      cases hc : rleCompress xs with
      | nil =>
          have hxs : xs = [] := by rw [← ih, hc]; rfl
          subst hxs
          rfl
      | cons hd tl =>
          obtain ⟨n, y⟩ := hd
          rw [hc] at ih
          simp only [rleDecompress] at ih
          by_cases hxy : x = y
          · subst hxy
            have hstep : rleCompress (x :: xs) = (n + 1, x) :: tl := by
              simp [rleCompress, hc]
            rw [hstep]
            simp only [rleDecompress, List.replicate_succ, List.cons_append]
            rw [ih]
          · have hbeq : (x == y) = false := by simp [hxy]
            have hstep : rleCompress (x :: xs) = (1, x) :: (n, y) :: tl := by
              simp [rleCompress, hc, hbeq]
            rw [hstep]
            simp only [rleDecompress, List.replicate_succ, List.replicate_zero,
              List.nil_append, List.cons_append]
            rw [ih]

/-- The decompressed output is exactly as long as the declared size. -/
theorem rleDecompress_length (runs : List (Nat × Nat)) :
    (rleDecompress runs).length = declaredSize runs := by
  induction runs with
  | nil => rfl
  | cons r rest ih =>
      obtain ⟨n, y⟩ := r
      simp [rleDecompress, declaredSize] at ih ⊢
      omega

end Compression

/-- C6: compress-then-decompress reproduces any payload under the size cap
exactly; payloads at or above the threshold are compressed before framing
and smaller ones are framed raw; and a frame whose declared size exceeds
the output bound is rejected with CompressionBombRejected, the accepted
output never exceeding the bound. -/
theorem C6_compression_roundtrip (cap threshold factor : Nat) (p : List Nat)
    (runs : List (Nat × Nat)) :
    (p.length ≤ cap →
      Compression.rleDecompress (Compression.rleCompress p) = p)
    ∧ (threshold ≤ p.length →
      Compression.encodePayload threshold p =
        ⟨true, .rle (Compression.rleCompress p)⟩)
    ∧ (p.length < threshold →
      Compression.encodePayload threshold p = ⟨false, .raw p⟩)
    ∧ (factor * runs.length < Compression.declaredSize runs →
      Compression.decompressBounded factor runs = .error .compressionBombRejected)
    ∧ (∀ out, Compression.decompressBounded factor runs = .ok out →
      out.length ≤ factor * runs.length) := by
  refine ⟨fun _ => Compression.rleDecompress_rleCompress p, ?_, ?_, ?_, ?_⟩
  · intro hth
    simp [Compression.encodePayload, hth]
  · intro hth
    have h2 : ¬ threshold ≤ p.length := by omega
    simp [Compression.encodePayload, h2]
  · intro hbig
    have h2 : ¬ Compression.declaredSize runs ≤ factor * runs.length := by omega
    simp [Compression.decompressBounded, h2]
  · intro out hok
    by_cases hle : Compression.declaredSize runs ≤ factor * runs.length
    · simp only [Compression.decompressBounded, hle, if_true] at hok
      have hout : out = Compression.rleDecompress runs := by
        injection hok with h
        exact h.symm
      rw [hout, Compression.rleDecompress_length]
      exact hle
    · simp [Compression.decompressBounded, hle] at hok

/-- C6 witness: the theorem applied to concrete payloads and frames: a
compressible payload, a short raw payload, a bomb frame declaring five
bytes out of one run, and an accepted one-byte frame. -/
theorem C6_compression_roundtrip_witness :
    (Compression.rleDecompress (Compression.rleCompress [3, 3, 4]) = [3, 3, 4])
    ∧ (Compression.encodePayload 2 [3, 3, 4] =
        ⟨true, .rle (Compression.rleCompress [3, 3, 4])⟩)
    ∧ (Compression.encodePayload 2 [9] = ⟨false, .raw [9]⟩)
    ∧ (Compression.decompressBounded 2 [(5, 1)] =
        .error .compressionBombRejected)
    ∧ (([1] : List Nat).length ≤ 2 * ([(1, 1)] : List (Nat × Nat)).length) :=
  ⟨(C6_compression_roundtrip 10 2 2 [3, 3, 4] []).1 (by decide),
    (C6_compression_roundtrip 10 2 2 [3, 3, 4] []).2.1 (by decide),
    (C6_compression_roundtrip 10 2 2 [9] []).2.2.1 (by decide),
    (C6_compression_roundtrip 10 2 2 [] [(5, 1)]).2.2.2.1 (by decide),
    (C6_compression_roundtrip 10 2 2 [] [(1, 1)]).2.2.2.2 [1] (by rfl)⟩

namespace Resolver

/-- Modelled from the spec: whether a candidate address came from the seed
configuration or was learned via gossip (spec section 3, resolver table
entries carry "source (seed config vs. learned)"). -/
inductive Source where
  | seed
  | learned
deriving DecidableEq, Repr

/-- Modelled from the spec: one candidate address of a peer, with its
freshness timestamp and source (spec sections 3 and 4.4). -/
structure Candidate where
  addr : Nat
  time : Nat
  source : Source
deriving DecidableEq, Repr

/-- Modelled from the spec: `update` "merges address into the candidate
set for id, refreshing its timestamp" (spec section 4.4): an existing
address gets the new timestamp and keeps its source, a new address is
appended. -/
def insertOrRefresh (entry : List Candidate) (a t : Nat) (src : Source) :
    List Candidate :=
  match entry with
  | [] => [⟨a, t, src⟩]
  | c :: rest =>
      if c.addr == a then { c with time := t } :: rest
      else c :: insertOrRefresh rest a t src

/-- Modelled from the spec: the lowest freshness timestamp among learned
candidates; seeds have an "infinite freshness floor" (spec section 4.4) and
never take part. -/
def minLearnedTime : List Candidate → Option Nat
  | [] => none
  | c :: rest =>
      let m := minLearnedTime rest
      if c.source == Source.learned then
        match m with
        | none => some c.time
        | some t => some (min c.time t)
      else m

/-- Modelled from the spec: removal of the first learned candidate carrying
the oldest timestamp. -/
def removeFirstLearnedAt (t : Nat) : List Candidate → List Candidate
  | [] => []
  | c :: rest =>
      if c.source == Source.learned && c.time == t then rest
      else c :: removeFirstLearnedAt t rest

/-- Modelled from the spec: `update` "evicts the oldest candidate if the
set exceeds a fixed capacity per peer" (spec section 4.4); seeds are
"never evicted", so the victim is the oldest learned candidate, and an
entry of seeds alone has no victim. -/
def evictOldest (entry : List Candidate) : List Candidate :=
  match minLearnedTime entry with
  | none => entry
  | some t => removeFirstLearnedAt t entry

/-- Modelled from the spec: one `update(id, address, source)` call on the
candidate set of one peer (spec section 4.4). -/
def update (cap : Nat) (entry : List Candidate) (a t : Nat) (src : Source) :
    List Candidate :=
  let merged := insertOrRefresh entry a t src
  if cap < merged.length then evictOldest merged else merged

/-- Modelled from the spec: a whole sequence of update calls on a peer's
candidate set, each carrying (address, timestamp, source). -/
def updateAll (cap : Nat) (entry : List Candidate)
    (us : List (Nat × Nat × Source)) : List Candidate :=
  us.foldl (fun e u => update cap e u.1 u.2.1 u.2.2) entry

/-- The number of seed candidates in an entry. -/
def countSeeds : List Candidate → Nat
  | [] => 0
  | c :: rest => (if c.source == Source.seed then 1 else 0) + countSeeds rest

/-- The entry holds address a as a seed candidate. -/
def hasSeedAddr (entry : List Candidate) (a : Nat) : Prop :=
  ∃ c ∈ entry, c.addr = a ∧ c.source = Source.seed

theorem insertOrRefresh_length_le (entry : List Candidate) (a t : Nat) (src : Source) :
    (insertOrRefresh entry a t src).length ≤ entry.length + 1 := by
  induction entry with
  | nil => simp [insertOrRefresh]
  | cons c rest ih =>
      by_cases h : c.addr == a
      · simp [insertOrRefresh, h]
      · simp [insertOrRefresh, h]
        omega

theorem countSeeds_insertOrRefresh_ge (entry : List Candidate) (a t : Nat) (src : Source) :
    countSeeds entry ≤ countSeeds (insertOrRefresh entry a t src) := by
  induction entry with
  | nil => simp [countSeeds]
  | cons c rest ih =>
      by_cases h : c.addr == a
      · have hstep : insertOrRefresh (c :: rest) a t src = { c with time := t } :: rest := by
          simp [insertOrRefresh, h]
        rw [hstep]
        exact Nat.le_refl _
      · have hstep : insertOrRefresh (c :: rest) a t src =
            c :: insertOrRefresh rest a t src := by
          simp [insertOrRefresh, h]
        rw [hstep]
        show (if c.source == Source.seed then 1 else 0) + countSeeds rest ≤
          (if c.source == Source.seed then 1 else 0) + countSeeds (insertOrRefresh rest a t src)
        exact Nat.add_le_add_left ih _

theorem countSeeds_removeFirstLearnedAt (t : Nat) (entry : List Candidate) :
    countSeeds (removeFirstLearnedAt t entry) = countSeeds entry := by
  induction entry with
  | nil => rfl
  | cons c rest ih =>
      by_cases h : c.source == Source.learned && c.time == t
      · simp only [Bool.and_eq_true, beq_iff_eq] at h
        simp [removeFirstLearnedAt, h.1, h.2, countSeeds]
      · simp [removeFirstLearnedAt, h, countSeeds, ih]

theorem minLearnedTime_none_all_seeds (entry : List Candidate)
    (h : minLearnedTime entry = none) : countSeeds entry = entry.length := by
  induction entry with
  | nil => rfl
  | cons c rest ih =>
      cases hs : c.source with
      | seed =>
          simp only [minLearnedTime, hs] at h
          simp only [show (Source.seed == Source.learned) = false from rfl] at h
          simp only [if_false, Bool.false_eq_true] at h
          simp [countSeeds, hs, ih h]
          omega
      | learned =>
          cases hmr : minLearnedTime rest with
          | none => simp [minLearnedTime, hs, hmr] at h
          | some tr => simp [minLearnedTime, hs, hmr] at h

theorem removeFirstLearnedAt_length (entry : List Candidate) (t : Nat)
    (h : minLearnedTime entry = some t) :
    (removeFirstLearnedAt t entry).length + 1 = entry.length := by
  induction entry generalizing t with
  | nil => simp [minLearnedTime] at h
  | cons c rest ih =>
      cases hs : c.source with
      | seed =>
          simp only [minLearnedTime, hs,
            show (Source.seed == Source.learned) = false from rfl, if_false,
            Bool.false_eq_true] at h
          have hcond : (c.source == Source.learned && c.time == t) = false := by
            simp [hs]
          simp [removeFirstLearnedAt, hcond, ih t h]
      | learned =>
          cases hmr : minLearnedTime rest with
          | none =>
              simp only [minLearnedTime, hs, hmr,
                show (Source.learned == Source.learned) = true from rfl, if_true,
                Option.some.injEq] at h
              subst h
              simp [removeFirstLearnedAt, hs]
          | some tr =>
              simp only [minLearnedTime, hs, hmr,
                show (Source.learned == Source.learned) = true from rfl, if_true,
                Option.some.injEq] at h
              by_cases hct : c.time = t
              · simp [removeFirstLearnedAt, hs, hct]
              · have htr : tr = t := by omega
                have hcond : (c.source == Source.learned && c.time == t) = false := by
                  simp [hs, hct]
                simp [removeFirstLearnedAt, hcond, ih t (htr ▸ hmr)]

theorem update_length_inv (cap : Nat) (entry : List Candidate) (a t : Nat)
    (src : Source) (h : entry.length ≤ max cap (countSeeds entry)) :
    (update cap entry a t src).length ≤
      max cap (countSeeds (update cap entry a t src)) := by
  unfold update
  by_cases hover : cap < (insertOrRefresh entry a t src).length
  · simp only [hover, if_true]
    cases hml : minLearnedTime (insertOrRefresh entry a t src) with
    | none =>
        simp only [evictOldest, hml]
        have hseeds := minLearnedTime_none_all_seeds (insertOrRefresh entry a t src) hml
        omega
    | some tmin =>
        simp only [evictOldest, hml]
        have hlen := removeFirstLearnedAt_length (insertOrRefresh entry a t src) tmin hml
        have hcs := countSeeds_removeFirstLearnedAt tmin (insertOrRefresh entry a t src)
        have hle := insertOrRefresh_length_le entry a t src
        have hcsge := countSeeds_insertOrRefresh_ge entry a t src
        omega
  · simp only [hover, if_false]
    omega

theorem updateAll_length_inv (cap : Nat) (us : List (Nat × Nat × Source))
    (entry : List Candidate) (h : entry.length ≤ max cap (countSeeds entry)) :
    (updateAll cap entry us).length ≤
      max cap (countSeeds (updateAll cap entry us)) := by
  induction us generalizing entry with
  | nil => exact h
  | cons u rest ih =>
      exact ih (update cap entry u.1 u.2.1 u.2.2)
        (update_length_inv cap entry u.1 u.2.1 u.2.2 h)

theorem hasSeedAddr_insertOrRefresh (entry : List Candidate) (x a t : Nat)
    (src : Source) (h : hasSeedAddr entry x) :
    hasSeedAddr (insertOrRefresh entry a t src) x := by
  induction entry with
  | nil =>
      rcases h with ⟨c, hc, _⟩
      simp at hc
  | cons c rest ih =>
      rcases h with ⟨d, hd, hda, hds⟩
      rcases List.mem_cons.mp hd with rfl | hdrest
      · by_cases hca : d.addr == a
        · refine ⟨{ d with time := t }, ?_, hda, hds⟩
          simp [insertOrRefresh, hca]
        · refine ⟨d, ?_, hda, hds⟩
          simp [insertOrRefresh, hca]
      · by_cases hca : c.addr == a
        · refine ⟨d, ?_, hda, hds⟩
          simp [insertOrRefresh, hca, hdrest]
        · rcases ih ⟨d, hdrest, hda, hds⟩ with ⟨e, he, hea, hes⟩
          refine ⟨e, ?_, hea, hes⟩
          simp [insertOrRefresh, hca]
          exact Or.inr he

theorem hasSeedAddr_removeFirstLearnedAt (t : Nat) (entry : List Candidate) (x : Nat)
    (h : hasSeedAddr entry x) : hasSeedAddr (removeFirstLearnedAt t entry) x := by
  induction entry with
  | nil => simpa [removeFirstLearnedAt] using h
  | cons c rest ih =>
      rcases h with ⟨d, hd, hda, hds⟩
      by_cases hc : c.source == Source.learned && c.time == t
      · rcases List.mem_cons.mp hd with rfl | hdrest
        · simp only [Bool.and_eq_true, beq_iff_eq] at hc
          rw [hds] at hc
          exact absurd hc.1 (by simp)
        · refine ⟨d, ?_, hda, hds⟩
          simp [removeFirstLearnedAt, hc, hdrest]
      · rcases List.mem_cons.mp hd with rfl | hdrest
        · refine ⟨d, ?_, hda, hds⟩
          simp [removeFirstLearnedAt, hc]
        · rcases ih ⟨d, hdrest, hda, hds⟩ with ⟨e, he, hea, hes⟩
          refine ⟨e, ?_, hea, hes⟩
          simp [removeFirstLearnedAt, hc]
          exact Or.inr he

theorem hasSeedAddr_update (cap : Nat) (entry : List Candidate) (x a t : Nat)
    (src : Source) (h : hasSeedAddr entry x) :
    hasSeedAddr (update cap entry a t src) x := by
  unfold update
  have hins := hasSeedAddr_insertOrRefresh entry x a t src h
  by_cases hover : cap < (insertOrRefresh entry a t src).length
  · simp only [hover, if_true]
    cases hml : minLearnedTime (insertOrRefresh entry a t src) with
    | none => simpa [evictOldest, hml] using hins
    | some tmin =>
        simp only [evictOldest, hml]
        exact hasSeedAddr_removeFirstLearnedAt tmin _ x hins
  · simpa [hover] using hins

theorem hasSeedAddr_updateAll (cap : Nat) (us : List (Nat × Nat × Source))
    (entry : List Candidate) (x : Nat) (h : hasSeedAddr entry x) :
    hasSeedAddr (updateAll cap entry us) x := by
  induction us generalizing entry with
  | nil => exact h
  | cons u rest ih =>
      exact ih (update cap entry u.1 u.2.1 u.2.2)
        (hasSeedAddr_update cap entry x u.1 u.2.1 u.2.2 h)

end Resolver

/-- C7 counterexample: with capacity 1, two update calls that supply two
distinct seed addresses leave a candidate set of size 2, exceeding the
capacity, because seeds are never evicted. -/
theorem C7_capacity_counterexample :
    1 < (Resolver.updateAll 1 []
      [(1, 0, Resolver.Source.seed), (2, 0, Resolver.Source.seed)]).length := by
  decide

/-- C7 (amended): after every sequence of Resolver.update calls the
candidate set never exceeds the larger of the fixed per-peer capacity and
its number of seed candidates — in particular it never exceeds the
capacity whenever the seed candidates fit within it, update evicting the
oldest learned candidate when the set would exceed it — and a seed address
supplied at startup is never evicted from its peer's candidate set. -/
theorem C7_resolver_bound (cap : Nat) (entry : List Resolver.Candidate)
    (us : List (Nat × Nat × Resolver.Source)) (a : Nat)
    (hinv : entry.length ≤ max cap (Resolver.countSeeds entry)) :
    ((Resolver.updateAll cap entry us).length ≤
      max cap (Resolver.countSeeds (Resolver.updateAll cap entry us)))
    ∧ (Resolver.countSeeds (Resolver.updateAll cap entry us) ≤ cap →
      (Resolver.updateAll cap entry us).length ≤ cap)
    ∧ (Resolver.hasSeedAddr entry a →
      Resolver.hasSeedAddr (Resolver.updateAll cap entry us) a) := by
  have hb := Resolver.updateAll_length_inv cap us entry hinv
  refine ⟨hb, fun hs => ?_, fun h => Resolver.hasSeedAddr_updateAll cap us entry a h⟩
  omega

/-- C7 witness: the theorem applied to a seeded entry of one address under
capacity 2, with one learned update. -/
theorem C7_resolver_bound_witness :
    ((Resolver.updateAll 2 [⟨7, 0, .seed⟩] [(8, 1, .learned)]).length ≤
      max 2 (Resolver.countSeeds (Resolver.updateAll 2 [⟨7, 0, .seed⟩]
        [(8, 1, .learned)])))
    ∧ (Resolver.countSeeds (Resolver.updateAll 2 [⟨7, 0, .seed⟩]
        [(8, 1, .learned)]) ≤ 2 →
      (Resolver.updateAll 2 [⟨7, 0, .seed⟩] [(8, 1, .learned)]).length ≤ 2)
    ∧ (Resolver.hasSeedAddr [⟨7, 0, .seed⟩] 7 →
      Resolver.hasSeedAddr (Resolver.updateAll 2 [⟨7, 0, .seed⟩]
        [(8, 1, .learned)]) 7) :=
  C7_resolver_bound 2 [⟨7, 0, .seed⟩] [(8, 1, .learned)] 7 (by decide)

namespace Ident

/-- Modelled from the spec: the gossip ident module is absent from src/.
The ID is "derived deterministically from a node's public key (e.g., a
fingerprint)" (spec section 3); keys are naturals and the fingerprint is a
symbolic injective function of the key. -/
def fingerprint (publicKey : Nat) : Nat := 2 * publicKey + 1

/-- Modelled from the spec: the authentication failure taxonomy of
certificate validation, CertInvalid / CertExpired / IdentityMismatch
(spec sections 4.1 and 7). -/
inductive CertError where
  | certInvalid
  | certExpired
  | identityMismatch
deriving DecidableEq, Repr

/-- Modelled from the spec: a certificate "binds an ID to a public key,
validity window, and issuer signature" (spec section 3); the self-issued
variant, whose verification key is the embedded public key. -/
structure Certificate where
  certId : Nat
  publicKey : Nat
  notBefore : Nat
  notAfter : Nat
  signature : Nat
deriving DecidableEq, Repr

/-- Modelled from the spec: symbolic encoding of the signed body of a
certificate (everything but the signature itself). -/
def certBody (c : Certificate) : Nat :=
  c.certId + 1000 * c.publicKey + 1000000 * c.notBefore + 1000000000 * c.notAfter

/-- Modelled from the spec: symbolic signature primitive; a signature is
valid iff it equals signData of the verification key and the message. -/
def signData (key msg : Nat) : Nat := 7 + 2 * key + 3 * msg

/-- Modelled from the spec: signature verification of a self-issued
certificate against its own embedded public key (spec section 4.1). -/
def verifySignature (c : Certificate) : Bool :=
  c.signature == signData c.publicKey (certBody c)

/-- Modelled from the spec: `validate(cert) -> Result<ID>` "verifies
signature, expiry, and that the embedded ID matches the fingerprint of the
embedded public key. Fails with CertInvalid on signature mismatch,
CertExpired outside the validity window, IdentityMismatch if fingerprint
disagrees" (spec section 4.1), checked in that order. -/
def validate (c : Certificate) (now : Nat) : Except CertError Nat :=
  if verifySignature c = false then .error .certInvalid
  else if now < c.notBefore ∨ c.notAfter < now then .error .certExpired
  else if fingerprint c.publicKey == c.certId then .ok c.certId
  else .error .identityMismatch

/-- A correctly signed certificate for key 10, ID 21, window 0..100. -/
def goodCert : Certificate :=
  ⟨21, 10, 0, 100, signData 10 (certBody ⟨21, 10, 0, 100, 0⟩)⟩

/-- goodCert with its signature flipped. -/
def tamperedCert : Certificate :=
  { goodCert with signature := goodCert.signature + 1 }

/-- A correctly signed certificate whose embedded ID is not the
fingerprint of its key. -/
def mismatchCert : Certificate :=
  ⟨22, 10, 0, 100, signData 10 (certBody ⟨22, 10, 0, 100, 0⟩)⟩

end Ident

/-- C2: a certificate whose signature verifies, whose window contains now,
and whose ID equals the fingerprint of its key validates to Ok with that
ID; a bad signature fails with CertInvalid, a time outside the window with
CertExpired, a fingerprint disagreeing with the ID with IdentityMismatch,
and a failing validation never returns an ID. -/
theorem C2_validate_certificate (c : Ident.Certificate) (now : Nat) :
    (Ident.verifySignature c = true → c.notBefore ≤ now → now ≤ c.notAfter →
      Ident.fingerprint c.publicKey = c.certId →
      Ident.validate c now = .ok c.certId)
    ∧ (Ident.verifySignature c = false →
      Ident.validate c now = .error .certInvalid)
    ∧ (Ident.verifySignature c = true → (now < c.notBefore ∨ c.notAfter < now) →
      Ident.validate c now = .error .certExpired)
    ∧ (Ident.verifySignature c = true → c.notBefore ≤ now → now ≤ c.notAfter →
      Ident.fingerprint c.publicKey ≠ c.certId →
      Ident.validate c now = .error .identityMismatch)
    ∧ (∀ e, Ident.validate c now = .error e →
      ∀ i, ¬ Ident.validate c now = .ok i) := by
  refine ⟨?_, ?_, ?_, ?_, ?_⟩
  · intro hv h1 h2 hfp
    have hwin : ¬ (now < c.notBefore ∨ c.notAfter < now) := by omega
    simp [Ident.validate, hv, hwin, hfp]
  · intro hv
    simp [Ident.validate, hv]
  · intro hv hwin
    simp [Ident.validate, hv, hwin]
  · intro hv h1 h2 hfp
    have hwin : ¬ (now < c.notBefore ∨ c.notAfter < now) := by omega
    simp [Ident.validate, hv, hwin, hfp]
  · intro e he i hok
    rw [he] at hok
    exact Except.noConfusion hok

/-- C2 witness: the theorem applied to concrete certificates, one per
validation outcome. -/
theorem C2_validate_certificate_witness :
    (Ident.validate Ident.goodCert 50 = .ok Ident.goodCert.certId)
    ∧ (Ident.validate Ident.tamperedCert 50 = .error .certInvalid)
    ∧ (Ident.validate Ident.goodCert 200 = .error .certExpired)
    ∧ (Ident.validate Ident.mismatchCert 50 = .error .identityMismatch)
    ∧ (¬ Ident.validate Ident.tamperedCert 50 = .ok 21) :=
  ⟨(C2_validate_certificate Ident.goodCert 50).1 (by decide) (by decide) (by decide)
      (by decide),
    (C2_validate_certificate Ident.tamperedCert 50).2.1 (by decide),
    (C2_validate_certificate Ident.goodCert 200).2.2.1 (by decide) (by decide),
    (C2_validate_certificate Ident.mismatchCert 50).2.2.2.1 (by decide) (by decide)
      (by decide) (by decide),
    (C2_validate_certificate Ident.tamperedCert 50).2.2.2.2 .certInvalid (by rfl) 21⟩

namespace Api

/-- ApiError from src/api/src/rpc/error.rs: a list of error message
strings. -/
structure ApiError where
  error : List String
deriving DecidableEq, Repr

/-- ApiError::new from error.rs. -/
def ApiError.new (error : List String) : ApiError :=
  ⟨error⟩

/-- ApiError::bad_token from error.rs. -/
def ApiError.bad_token : ApiError :=
  ApiError.new ["Bad token", "It\x27s either expired or in bad shape"]

/-- ApiError::unauthorized from error.rs. -/
def ApiError.unauthorized : ApiError :=
  ApiError.new ["Unauthorized",
    "Token is valid but cannot be used with this user_id",
    "Either because it requires admin privilege or your token does not belongs to you"]

/-- ApiError::wrong_password from error.rs. -/
def ApiError.wrong_password : ApiError :=
  ApiError.new ["Wrong password"]

/-- ApiError::user_not_found from error.rs, with Uuid values rendered as
naturals. -/
def ApiError.user_not_found (user_id : Nat) : ApiError :=
  ApiError.new ["Cannot find user with ID `" ++ toString user_id ++ "`"]

/-- ApiError::entity_not_found from error.rs. -/
def ApiError.entity_not_found (entity_id : Nat) : ApiError :=
  ApiError.new ["Cannot find entity with ID `" ++ toString entity_id ++ "`"]

/-- ApiError::task_not_found from error.rs. -/
def ApiError.task_not_found (task_id : Nat) : ApiError :=
  ApiError.new ["Cannot find task with ID `" ++ toString task_id ++ "`"]

/-- ApiError::bad_request from error.rs. -/
def ApiError.bad_request (err : String) : ApiError :=
  ApiError.new ["Bad request", err]

/-- ApiError::internal_error from error.rs. -/
def ApiError.internal_error : ApiError :=
  ApiError.new ["Internal Error"]

/-- The Response trait implementation for ApiError from error.rs
lines 92 to 96: it always reports failure. -/
def ApiError.is_successful (_ : ApiError) : Bool :=
  false

/-- Modelled from the spec: ResponseObject lives in src/api/src/rpc/mod.rs,
which is absent from src/; per the doc example in error.rs a packed
ApiError serializes with success false, so ResponseObject::error records
the data's is_successful value as the success flag; the serialization
timestamp is abstracted to a fixed string. -/
structure ResponseObject where
  data : ApiError
  success : Bool
  time : String
deriving DecidableEq, Repr

/-- Modelled from the spec: ResponseObject::error (rpc/mod.rs, absent from
src/), the packer used by ApiError::packed. -/
def ResponseObject.error (d : ApiError) : ResponseObject :=
  ⟨d, d.is_successful, "1970-01-01T00:00:00.000000000Z"⟩

/-- ApiError::packed from error.rs lines 45 to 47. -/
def ApiError.packed (e : ApiError) : ResponseObject :=
  ResponseObject.error e

/-- Modelled from the spec: the claims carried by a bearer token, as seen
by the handlers — whether the token verifies at all and whether it carries
the admin privilege (jwt.rs and context.rs are absent from src/). -/
structure ApiToken where
  valid : Bool
  admin : Bool
deriving DecidableEq, Repr

/-- Modelled from the spec: Context::validate_token (context.rs, absent
from src/): an invalid or expired token fails with bad_token. -/
def validateToken (t : ApiToken) : Except ApiError ApiToken :=
  if t.valid then .ok t else .error ApiError.bad_token

/-- Modelled from the spec: Claims::ensure_admin (absent from src/): a
token without admin privilege fails with unauthorized. -/
def ensureAdmin (t : ApiToken) : Except ApiError ApiToken :=
  if t.admin then .ok t else .error ApiError.unauthorized

/-- Task from sg_core as stored in the tasks collection and used by
handler.rs: id, parent entity id, kind and parameters, with Uuid values
rendered as naturals and the params map as string pairs. -/
structure DbTask where
  id : Nat
  entity : Nat
  kind : String
  params : List (String × String)
deriving DecidableEq, Repr

/-- Entity as stored in the entities collection and used by handler.rs,
where entity.tasks is the list of its task ids (pushed by add_task and
matched by id in del_entity); meta is opaque here. -/
structure DbEntity where
  id : Nat
  meta : String
  tasks : List Nat
deriving DecidableEq, Repr

/-- The persistent state the two handlers touch: the tasks and entities
collections. -/
structure Db where
  tasks : List DbTask
  entities : List DbEntity
deriving DecidableEq, Repr

/-- Mongo update_one with a $push of a task id onto the tasks array of the
first entity matching the id filter, returning the new collection and the
modified count (handler.rs lines 163 to 172). -/
def update_one_push (es : List DbEntity) (eid tid : Nat) : List DbEntity × Nat :=
  match es with
  | [] => ([], 0)
  | e :: rest =>
      if e.id == eid then ({ e with tasks := e.tasks ++ [tid] } :: rest, 1)
      else
        let r := update_one_push rest eid tid
        (e :: r.1, r.2)

/-- Mongo find_one_and_delete on the entities collection by id filter
(handler.rs lines 141 to 145): returns the deleted document, if any, and
the remaining collection. -/
def find_one_and_delete_entity (es : List DbEntity) (eid : Nat) :
    Option DbEntity × List DbEntity :=
  match es with
  | [] => (none, [])
  | e :: rest =>
      if e.id == eid then (some e, rest)
      else
        let r := find_one_and_delete_entity rest eid
        (r.1, e :: r.2)

/-- Mongo delete_many of all tasks whose id is in the given list
(handler.rs lines 148 to 150). -/
def delete_many_tasks (ts : List DbTask) (ids : List Nat) : List DbTask :=
  ts.filter (fun t => !(ids.contains t.id))

/-- add_task from handler.rs lines 155 to 178: validates the token,
requires admin, inserts the new task into the tasks collection, then
pushes its id onto the matching entity; if no entity was modified it
returns entity_not_found, leaving the inserted task in place. -/
def add_task (db : Db) (tok : ApiToken) (entityId freshId : Nat) (kind : String)
    (params : List (String × String)) : Except ApiError DbTask × Db :=
  match validateToken tok with
  | .error e => (.error e, db)
  | .ok claims =>
      match ensureAdmin claims with
      | .error e => (.error e, db)
      | .ok _ =>
          let task : DbTask := ⟨freshId, entityId, kind, params⟩
          let db1 : Db := { db with tasks := db.tasks ++ [task] }
          let r := update_one_push db1.entities entityId task.id
          let db2 : Db := { db1 with entities := r.1 }
          if r.2 == 0 then (.error (ApiError.entity_not_found entityId), db2)
          else (.ok task, db2)

/-- del_entity from handler.rs lines 135 to 153: validates the token,
requires admin, find_one_and_deletes the entity (entity_not_found when
absent), then delete_manys every task whose id is in the deleted entity's
tasks list and returns the deleted entity. -/
def del_entity (db : Db) (tok : ApiToken) (entityId : Nat) :
    Except ApiError DbEntity × Db :=
  match validateToken tok with
  | .error e => (.error e, db)
  | .ok claims =>
      match ensureAdmin claims with
      | .error e => (.error e, db)
      | .ok _ =>
          let r := find_one_and_delete_entity db.entities entityId
          match r.1 with
          | none =>
              (.error (ApiError.entity_not_found entityId),
                { db with entities := r.2 })
          | some ent =>
              (.ok ent,
                { db with
                    entities := r.2
                    tasks := delete_many_tasks db.tasks ent.tasks })

/-- When no entity matches, update_one_push modifies nothing. -/
theorem update_one_push_no_match (es : List DbEntity) (eid tid : Nat)
    (h : ∀ e ∈ es, e.id ≠ eid) : update_one_push es eid tid = (es, 0) := by
  induction es with
  | nil => rfl
  | cons e rest ih =>
      have he : (e.id == eid) = false := by
        simp
        exact h e (List.mem_cons_self e rest)
      have hrest := ih (fun x hx => h x (List.mem_cons_of_mem e hx))
      simp [update_one_push, he, hrest]

/-- When no entity matches, find_one_and_delete_entity deletes nothing. -/
theorem find_one_and_delete_entity_no_match (es : List DbEntity) (eid : Nat)
    (h : ∀ e ∈ es, e.id ≠ eid) :
    find_one_and_delete_entity es eid = (none, es) := by
  induction es with
  | nil => rfl
  | cons e rest ih =>
      have he : (e.id == eid) = false := by
        simp
        exact h e (List.mem_cons_self e rest)
      have hrest := ih (fun x hx => h x (List.mem_cons_of_mem e hx))
      simp [find_one_and_delete_entity, he, hrest]

/-- A deleted entity carried the searched id and was in the collection. -/
theorem find_one_and_delete_entity_some (es : List DbEntity) (eid : Nat)
    (ent : DbEntity) (es2 : List DbEntity)
    (h : find_one_and_delete_entity es eid = (some ent, es2)) :
    ent.id = eid ∧ ent ∈ es := by
  induction es generalizing es2 with
  | nil => simp [find_one_and_delete_entity] at h
  | cons e rest ih =>
      by_cases he : e.id == eid
      · simp only [find_one_and_delete_entity, he, if_true, Prod.mk.injEq,
          Option.some.injEq] at h
        rcases h with ⟨rfl, _⟩
        exact ⟨by simpa using he, List.mem_cons_self e rest⟩
      · simp only [find_one_and_delete_entity, he, Bool.false_eq_true, if_false,
          Prod.mk.injEq] at h
        obtain ⟨h1, h2⟩ := h
        have hpair : find_one_and_delete_entity rest eid =
            (some ent, (find_one_and_delete_entity rest eid).2) := by
          rw [← h1]
        obtain ⟨hid, hmem⟩ := ih _ hpair
        exact ⟨hid, List.mem_cons_of_mem e hmem⟩

/-- Membership in the surviving tasks after delete_many_tasks. -/
theorem mem_delete_many_tasks (ts : List DbTask) (ids : List Nat) (t : DbTask) :
    t ∈ delete_many_tasks ts ids ↔ (t ∈ ts ∧ t.id ∉ ids) := by
  simp [delete_many_tasks, List.mem_filter]

end Api

/-- C8: with an admin token and an entity_id matching no entity, add_task
returns the entity_not_found error while the new task has already been
inserted into the tasks collection and is not removed: the failed call
still changes persistent state, entities staying untouched. -/
theorem C8_add_task_inserts_on_error (db : Api.Db) (tok : Api.ApiToken)
    (entityId freshId : Nat) (kind : String) (params : List (String × String))
    (hv : tok.valid = true) (ha : tok.admin = true)
    (hnone : ∀ e ∈ db.entities, e.id ≠ entityId) :
    Api.add_task db tok entityId freshId kind params =
      (.error (Api.ApiError.entity_not_found entityId),
        { db with tasks := db.tasks ++ [⟨freshId, entityId, kind, params⟩] })
    ∧ ({ db with tasks := db.tasks ++ [⟨freshId, entityId, kind, params⟩] } : Api.Db)
        ≠ db := by
  have hpush := Api.update_one_push_no_match db.entities entityId freshId hnone
  constructor
  · simp [Api.add_task, Api.validateToken, hv, Api.ensureAdmin, ha, hpush]
  · intro hcontra
    have htasks : db.tasks ++ [(⟨freshId, entityId, kind, params⟩ : Api.DbTask)] =
        db.tasks := congrArg Api.Db.tasks hcontra
    have hlen := congrArg List.length htasks
    simp at hlen

/-- C8 witness: the theorem applied to a database holding one entity with
id 1 and no tasks, an admin token, and the unmatched entity id 5. -/
theorem C8_add_task_inserts_on_error_witness :
    Api.add_task ⟨[], [⟨1, "m", []⟩]⟩ ⟨true, true⟩ 5 10 "k" [] =
      (.error (Api.ApiError.entity_not_found 5),
        { (⟨[], [⟨1, "m", []⟩]⟩ : Api.Db) with
            tasks := ([] : List Api.DbTask) ++ [⟨10, 5, "k", []⟩] })
    ∧ ({ (⟨[], [⟨1, "m", []⟩]⟩ : Api.Db) with
          tasks := ([] : List Api.DbTask) ++ [⟨10, 5, "k", []⟩] } : Api.Db)
        ≠ ⟨[], [⟨1, "m", []⟩]⟩ :=
  C8_add_task_inserts_on_error ⟨[], [⟨1, "m", []⟩]⟩ ⟨true, true⟩ 5 10 "k" []
    rfl rfl (by decide)

/-- C9: with an admin token, del_entity returns entity_not_found and
leaves the database unchanged when no entity matches; when one matches it
deletes that entity, deletes exactly the tasks whose id appears in the
deleted entity's tasks list, and returns the deleted entity. -/
theorem C9_del_entity_correct (db : Api.Db) (tok : Api.ApiToken) (entityId : Nat)
    (hv : tok.valid = true) (ha : tok.admin = true) :
    ((∀ e ∈ db.entities, e.id ≠ entityId) →
      Api.del_entity db tok entityId =
        (.error (Api.ApiError.entity_not_found entityId), db))
    ∧ (∀ ent es2,
        Api.find_one_and_delete_entity db.entities entityId = (some ent, es2) →
        Api.del_entity db tok entityId =
          (.ok ent,
            { db with
                entities := es2
                tasks := Api.delete_many_tasks db.tasks ent.tasks })
        ∧ ent.id = entityId ∧ ent ∈ db.entities
        ∧ (∀ t, t ∈ Api.delete_many_tasks db.tasks ent.tasks ↔
            (t ∈ db.tasks ∧ t.id ∉ ent.tasks))) := by
  constructor
  · intro hnone
    have hfind := Api.find_one_and_delete_entity_no_match db.entities entityId hnone
    simp [Api.del_entity, Api.validateToken, hv, Api.ensureAdmin, ha, hfind]
  · intro ent es2 hfind
    obtain ⟨hid, hmem⟩ :=
      Api.find_one_and_delete_entity_some db.entities entityId ent es2 hfind
    refine ⟨?_, hid, hmem, fun t => Api.mem_delete_many_tasks db.tasks ent.tasks t⟩
    simp [Api.del_entity, Api.validateToken, hv, Api.ensureAdmin, ha, hfind]

/-- C9 witness: the theorem applied to a database holding entity 1 owning
task 10 next to the unrelated task 11, once with the unmatched id 5 and
once deleting entity 1. -/
theorem C9_del_entity_correct_witness :
    (Api.del_entity ⟨[⟨10, 1, "k", []⟩, ⟨11, 2, "k2", []⟩], [⟨1, "m", [10]⟩]⟩
        ⟨true, true⟩ 5 =
      (.error (Api.ApiError.entity_not_found 5),
        ⟨[⟨10, 1, "k", []⟩, ⟨11, 2, "k2", []⟩], [⟨1, "m", [10]⟩]⟩))
    ∧ (Api.del_entity ⟨[⟨10, 1, "k", []⟩, ⟨11, 2, "k2", []⟩], [⟨1, "m", [10]⟩]⟩
          ⟨true, true⟩ 1 =
        (.ok ⟨1, "m", [10]⟩,
          { (⟨[⟨10, 1, "k", []⟩, ⟨11, 2, "k2", []⟩], [⟨1, "m", [10]⟩]⟩ : Api.Db) with
              entities := ([] : List Api.DbEntity)
              tasks := Api.delete_many_tasks
                [⟨10, 1, "k", []⟩, ⟨11, 2, "k2", []⟩] [10] })
        ∧ (⟨1, "m", [10]⟩ : Api.DbEntity).id = 1
        ∧ (⟨1, "m", [10]⟩ : Api.DbEntity) ∈ [(⟨1, "m", [10]⟩ : Api.DbEntity)]
        ∧ (∀ t, t ∈ Api.delete_many_tasks
              [⟨10, 1, "k", []⟩, ⟨11, 2, "k2", []⟩] [10] ↔
            (t ∈ [(⟨10, 1, "k", []⟩ : Api.DbTask), ⟨11, 2, "k2", []⟩]
              ∧ t.id ∉ ([10] : List Nat)))) :=
  ⟨(C9_del_entity_correct ⟨[⟨10, 1, "k", []⟩, ⟨11, 2, "k2", []⟩], [⟨1, "m", [10]⟩]⟩
      ⟨true, true⟩ 5 rfl rfl).1 (by decide),
    (C9_del_entity_correct ⟨[⟨10, 1, "k", []⟩, ⟨11, 2, "k2", []⟩], [⟨1, "m", [10]⟩]⟩
      ⟨true, true⟩ 1 rfl rfl).2 ⟨1, "m", [10]⟩ [] (by rfl)⟩

/-- C10: every ApiError value, from whichever of the eight constructors,
reports is_successful false, so the ResponseObject built by packed always
reports success false. -/
theorem C10_api_error_unsuccessful :
    (∀ e : Api.ApiError,
      e.is_successful = false ∧ e.packed.success = false)
    ∧ (∀ (u : Nat) (s : String),
        Api.ApiError.bad_token.packed.success = false
        ∧ Api.ApiError.unauthorized.packed.success = false
        ∧ Api.ApiError.wrong_password.packed.success = false
        ∧ (Api.ApiError.user_not_found u).packed.success = false
        ∧ (Api.ApiError.entity_not_found u).packed.success = false
        ∧ (Api.ApiError.task_not_found u).packed.success = false
        ∧ (Api.ApiError.bad_request s).packed.success = false
        ∧ Api.ApiError.internal_error.packed.success = false) :=
  ⟨fun _ => ⟨rfl, rfl⟩, fun _ _ => ⟨rfl, rfl, rfl, rfl, rfl, rfl, rfl, rfl⟩⟩
